import Mathlib

/-!
Verification of the client side of the RAG system's streaming chat
transport and upload validation:

* `handleSendMessage` in `apps/web/components/chat/ChatInterface.tsx`
  (SSE reassembly loop, error-frame handling, draft finalization),
* `handleSend` in `apps/web/components/chat/MessageInput.tsx`,
* `validateAndSetFile` in `apps/web/components/documents/DocumentUpload.tsx`.

JavaScript strings are modelled as lists of characters (`Str`).  The
JS calls `buffer.split("\n\n")` and `event.split("\n")` are modelled by
`splitNN` and `splitN` (leftmost, non-overlapping occurrences, exactly
as `String.prototype.split` with a string separator behaves).  The
`TextDecoder` is modelled as the identity on already-decoded text: the
read chunks are given directly as character lists.
-/

set_option maxHeartbeats 1000000

/-- A JavaScript string, modelled as a list of characters. -/
abbrev Str := List Char

/-- Embed a Lean string literal as a character list. -/
def strOf (s : String) : Str := s.data

/-- JS `String.prototype.trim`: strip whitespace from both ends. -/
def trim (s : Str) : Str :=
  ((s.dropWhile Char.isWhitespace).reverse.dropWhile Char.isWhitespace).reverse

/-- JS `s.split("\n\n")`: split at each leftmost, non-overlapping
occurrence of two consecutive newlines.  Always returns a non-empty
list; the pieces contain no `"\n\n"` occurrence. -/
def splitNN : Str → List Str
  | [] => [[]]
  | [c] => [[c]]
  | c1 :: c2 :: rest =>
    if c1 = '\n' ∧ c2 = '\n' then
      [] :: splitNN rest
    else
      match splitNN (c2 :: rest) with
      | [] => [[c1]]
      | h :: t => (c1 :: h) :: t

/-- JS `s.split("\n")`: split at every newline. -/
def splitN : Str → List Str
  | [] => [[]]
  | c :: rest =>
    if c = '\n' then
      [] :: splitN rest
    else
      match splitN rest with
      | [] => [[c]]
      | h :: t => (c :: h) :: t

/-- Last element of a list of strings, `[]` when the list is empty
(JS `events.pop() || ""` on the always-non-empty result of `split`). -/
def lastD : List Str → Str
  | [] => []
  | [s] => s
  | _ :: s :: t => lastD (s :: t)

/-- Rejoin the pieces of a `splitNN` with the `"\n\n"` separator. -/
def joinNN : List Str → Str
  | [] => []
  | [s] => s
  | s :: t :: r => s ++ '\n' :: '\n' :: joinNN (t :: r)

/-- Does the string contain two consecutive newlines (a complete SSE
event delimiter)? -/
def hasNN : Str → Bool
  | [] => false
  | [_] => false
  | c1 :: c2 :: rest => (c1 = '\n' && c2 = '\n') || hasNN (c2 :: rest)

/-! ## The chat data model (`ChatInterface.tsx`)

A `Message` carries exactly the fields the component stores:
`id`, `role`, `content`, `timestamp`, `isStreaming` (the TS interface
marks `isStreaming` optional; an absent flag is modelled as `false`).
Message ids (`user-${Date.now()}` / `assistant-${Date.now()}`) are
modelled as abstract numeric ids. -/

/-- Role of a chat message. -/
inductive Role where
  | user
  | assistant
deriving DecidableEq

/-- A chat message as stored in the component's `messages` state. -/
structure Message where
  id : Nat
  role : Role
  content : Str
  timestamp : Nat
  isStreaming : Bool
deriving DecidableEq

/-- The `"data: "` tag checked by `line.startsWith("data: ")`. -/
def dataTag : Str := strOf "data: "

/-- The `"[ERROR]"` sentinel checked by `content.startsWith("[ERROR]")`. -/
def errTag : Str := strOf "[ERROR]"

/-- The streaming update `setMessages(prev => prev.map(msg => msg.id ===
assistantMessageId ? { ...msg, content: assistantContent, isStreaming:
true } : msg))` used at both update sites of `handleSendMessage`. -/
def updateDraft (aid : Nat) (c : Str) (msgs : List Message) : List Message :=
  msgs.map fun m => if m.id = aid then { m with content := c, isStreaming := true } else m

/-- The completion update `setMessages(prev => prev.map(msg => msg.id ===
assistantMessageId ? { ...msg, isStreaming: false } : msg))`. -/
def finalizeDraft (aid : Nat) (msgs : List Message) : List Message :=
  msgs.map fun m => if m.id = aid then { m with isStreaming := false } else m

/-- The state threaded through the receive loop: the accumulated
`assistantContent` and the `messages` React state. -/
structure StreamState where
  content : Str
  messages : List Message
deriving DecidableEq

/-- An error thrown by the receive loop carries the thrown message text
(`content.slice(7).trim()`) together with the `messages` state at throw
time (the `catch` block filters that state). -/
abbrev StreamErr := Str × List Message

instance {ε α : Type} [DecidableEq ε] [DecidableEq α] : DecidableEq (Except ε α) :=
  fun x y =>
    match x, y with
    | .error a, .error b =>
      if h : a = b then .isTrue (by rw [h]) else .isFalse fun hc => h (Except.error.inj hc)
    | .ok a, .ok b =>
      if h : a = b then .isTrue (by rw [h]) else .isFalse fun hc => h (Except.ok.inj hc)
    | .error _, .ok _ => .isFalse fun hc => Except.noConfusion hc
    | .ok _, .error _ => .isFalse fun hc => Except.noConfusion hc

/-- Processing of a single line of a complete event (the body of
`for (const line of lines)` in the `while` loop): a `"data: "` line with
a non-empty payload that does not start with `"[ERROR]"` appends the
payload and updates the draft; an `"[ERROR]"` payload throws. -/
def lineStep (aid : Nat) (st : StreamState) (line : Str) : Except StreamErr StreamState :=
  if dataTag.isPrefixOf line then
    if !(line.drop 6).isEmpty && !errTag.isPrefixOf (line.drop 6) then
      .ok ⟨st.content ++ line.drop 6,
        updateDraft aid (st.content ++ line.drop 6) st.messages⟩
    else if errTag.isPrefixOf (line.drop 6) then
      .error (trim ((line.drop 6).drop 7), st.messages)
    else
      .ok st
  else
    .ok st

/-- Processing of one complete event: `event.split("\n")` then the line
loop. -/
def eventStep (aid : Nat) (st : StreamState) (ev : Str) : Except StreamErr StreamState :=
  (splitN ev).foldlM (lineStep aid) st

/-- Processing of a list of complete events (`for (const event of events)`). -/
def eventsStep (aid : Nat) (st : StreamState) (evs : List Str) : Except StreamErr StreamState :=
  evs.foldlM (eventStep aid) st

/-- Receive-loop state: the persistent `buffer` plus the stream state. -/
structure BufState where
  buffer : Str
  state : StreamState
deriving DecidableEq

/-- One iteration of the `while (true)` read loop: append the read to
the buffer, split on `"\n\n"`, keep the last (incomplete) piece as the
new buffer (`buffer = events.pop() || ""`), process the complete
events. -/
def readStep (aid : Nat) (bs : BufState) (r : Str) : Except StreamErr BufState :=
  let parts := splitNN (bs.buffer ++ r)
  (eventsStep aid bs.state parts.dropLast).map fun st => ⟨lastD parts, st⟩

/-- The whole read loop over the sequence of reads delivered before
`done`. -/
def readLoop (aid : Nat) (bs : BufState) (reads : List Str) : Except StreamErr BufState :=
  reads.foldlM (readStep aid) bs

/-- One line of the final `if (buffer)` pass: like `lineStep` but an
`"[ERROR]"` payload is silently skipped (that pass has no `else if`). -/
def tailLine (aid : Nat) (st : StreamState) (line : Str) : StreamState :=
  if dataTag.isPrefixOf line then
    if !(line.drop 6).isEmpty && !errTag.isPrefixOf (line.drop 6) then
      ⟨st.content ++ line.drop 6,
        updateDraft aid (st.content ++ line.drop 6) st.messages⟩
    else
      st
  else
    st

/-- The final `if (buffer) { for (const line of buffer.split("\n")) ... }`
pass over whatever is left in the buffer at stream end. -/
def tailPass (aid : Nat) (st : StreamState) (buf : Str) : StreamState :=
  if buf.isEmpty then st else (splitN buf).foldl (tailLine aid) st

/-- The user message appended at the start of a turn (`role: "user"`,
the raw `content` argument, no streaming flag). -/
def mkUserMsg (uid ts : Nat) (content : Str) : Message :=
  ⟨uid, Role.user, content, ts, false⟩

/-- The empty assistant draft appended for streaming (`content: ""`,
`isStreaming: true`). -/
def mkDraft (aid ts : Nat) : Message :=
  ⟨aid, Role.assistant, [], ts, true⟩

/-- The messages state right after the user message and the empty draft
have been appended. -/
def initMsgs (msgs : List Message) (uid ts : Nat) (text : Str) (aid : Nat) : List Message :=
  msgs ++ [mkUserMsg uid ts text, mkDraft aid ts]

/-- The observable outcome of one `handleSendMessage` call: the final
`messages` state, the final `error` state and the final `isLoading`
state. -/
structure TurnResult where
  messages : List Message
  error : Option Str
  loading : Bool
deriving DecidableEq

/-- `handleSendMessage` of `ChatInterface.tsx`, as a function of the
prior component state (`msgs`, `prevError`, `isLoading`), the submitted
`text`, the generated ids and timestamp, and the sequence of decoded
reads delivered by the response body before `done`.

* the guard `if (!content.trim() || isLoading) return` leaves all state
  unchanged;
* otherwise the user message and the empty draft are appended, the read
  loop runs, and
  - on a thrown `"[ERROR]"` frame the `catch` block sets the error and
    filters the draft out of the messages state at throw time,
  - on clean completion the leftover buffer is processed by the
    `if (buffer)` pass, the draft's streaming flag is cleared and the
    error stays `null` (it was reset on entry);
* `finally` clears `isLoading`. -/
def handleSendMessage (msgs : List Message) (prevError : Option Str) (isLoading : Bool)
    (text : Str) (uid aid ts : Nat) (reads : List Str) : TurnResult :=
  if (trim text).isEmpty || isLoading then
    ⟨msgs, prevError, isLoading⟩
  else
    let msgs1 := initMsgs msgs uid ts text aid
    match readLoop aid ⟨[], ⟨[], msgs1⟩⟩ reads with
    | .ok bs =>
      let st := tailPass aid bs.state bs.buffer
      ⟨finalizeDraft aid st.messages, none, false⟩
    | .error (e, em) =>
      ⟨em.filter fun m => m.id != aid, some e, false⟩

/-- `handleSend` of `MessageInput.tsx`: dispatches the trimmed input via
`onSendMessage` only when it is non-empty and no turn is loading;
returns the dispatched content, `none` when nothing is dispatched. -/
def handleSend (input : Str) (isLoading : Bool) : Option Str :=
  let trimmed := trim input
  if !trimmed.isEmpty && !isLoading then some trimmed else none

/-! ## The upload validation model (`DocumentUpload.tsx`) -/

/-- Index of the last `'.'` in a filename, `none` when there is no dot
(JS `name.lastIndexOf(".")` returning `-1`). -/
def lastDotIdx : Str → Option Nat
  | [] => none
  | c :: rest =>
    match lastDotIdx rest with
    | some i => some (i + 1)
    | none => if c = '.' then some 0 else none

/-- `selectedFile.name.substring(selectedFile.name.lastIndexOf(".")).toLowerCase()`.
JS `substring(-1)` clamps to `0`, so a dotless name yields the whole
name lowercased.  `toLowerCase` is modelled by `Char.toLower` (they
agree on the ASCII filenames at issue). -/
def fileExt (name : Str) : Str :=
  (match lastDotIdx name with
   | some i => name.drop i
   | none => name).map Char.toLower

/-- The `allowedTypes` array of `validateAndSetFile`. -/
def allowedTypes : List Str := [strOf ".pdf", strOf ".txt", strOf ".md", strOf ".docx"]

/-- The error message built from `allowedTypes.join(", ")`. -/
def unsupportedMsg : Str :=
  strOf "Unsupported file type. Allowed types: .pdf, .txt, .md, .docx"

/-- The component state touched by `validateAndSetFile`: the selected
file (by name) and the error text (`""` meaning no error). -/
structure UploadState where
  file : Option Str
  error : Str
deriving DecidableEq

/-- `validateAndSetFile` of `DocumentUpload.tsx`: a file whose extension
is not in `allowedTypes` sets the unsupported-type error and returns
before `setFile` (the selected file is unchanged); an allowed file is
stored and the error is cleared. -/
def validateAndSetFile (st : UploadState) (name : Str) : UploadState :=
  if !(allowedTypes.contains (fileExt name)) then
    { st with error := unsupportedMsg }
  else
    ⟨some name, []⟩

/-- Does the string contain a newline character? -/
def hasNL : Str → Bool
  | [] => false
  | c :: rest => (c = '\n') || hasNL rest

/-- The text a single line contributes to the accumulated content: the
after-tag payload for a non-empty, non-error `"data: "` line, nothing
for any other line. -/
def lineContent (line : Str) : Str :=
  if dataTag.isPrefixOf line then
    if !(line.drop 6).isEmpty && !errTag.isPrefixOf (line.drop 6) then
      line.drop 6
    else
      []
  else
    []

/-- The text a complete event contributes to the accumulated content:
the concatenation of the contributions of its lines. -/
def eventContent (ev : Str) : Str :=
  ((splitN ev).map lineContent).foldl (· ++ ·) []

/-- The single unsplit read: concatenation of all delivered reads. -/
def concatAll : List Str → Str
  | [] => []
  | r :: rs => r ++ concatAll rs

/-- Shape invariant of the stream state during a turn: the messages are
the untouched prior list followed by the draft, whose content is the
accumulated content. -/
def DraftInv (base : List Message) (aid ts : Nat) (st : StreamState) : Prop :=
  ∃ s, st.messages = base ++ [⟨aid, Role.assistant, st.content, ts, s⟩]

/-- Shape of the messages carried by a thrown stream error. -/
def ErrInv (base : List Message) (aid ts : Nat) (e : StreamErr) : Prop :=
  ∃ c s, e.2 = base ++ [⟨aid, Role.assistant, c, ts, s⟩]

/-! ## Lemmas about the split functions -/

theorem splitNN_ne_nil (s : Str) : splitNN s ≠ [] := by
  induction s using splitNN.induct with
  | case1 => simp [splitNN]
  | case2 c => simp [splitNN]
  | case3 c1 c2 rest h ih => simp [splitNN, h]
  | case4 c1 c2 rest h heq ih => exact absurd heq ih
  | case5 c1 c2 rest h hd tl heq ih => simp [splitNN, h, heq]

theorem lastD_cons_cons (a b : Str) (l : List Str) :
    lastD (a :: b :: l) = lastD (b :: l) := rfl

theorem lastD_append (l₁ l₂ : List Str) (h : l₂ ≠ []) :
    lastD (l₁ ++ l₂) = lastD l₂ := by
  induction l₁ with
  | nil => rfl
  | cons a l ih =>
    cases l with
    | nil =>
      cases l₂ with
      | nil => exact absurd rfl h
      | cons b t => rfl
    | cons a' l' =>
      rw [List.cons_append, List.cons_append, lastD_cons_cons, ← List.cons_append]
      exact ih

theorem splitNN_nn (rest : Str) : splitNN ('\n' :: '\n' :: rest) = [] :: splitNN rest := by
  rw [splitNN, if_pos ⟨rfl, rfl⟩]

theorem splitNN_cons_cons {c1 c2 : Char} {rest hd : Str} {tl : List Str}
    (hg : ¬(c1 = '\n' ∧ c2 = '\n')) (heq : splitNN (c2 :: rest) = hd :: tl) :
    splitNN (c1 :: c2 :: rest) = (c1 :: hd) :: tl := by
  rw [splitNN, if_neg hg, heq]

theorem splitNN_eq_singleton {r h : Str} (he : splitNN r = [h]) : r = h := by
  induction r using splitNN.induct generalizing h with
  | case1 =>
    rw [splitNN] at he
    injection he
  | case2 c =>
    rw [splitNN] at he
    injection he
  | case3 c1 c2 rest hg ih =>
    obtain ⟨rfl, rfl⟩ := hg
    rw [splitNN_nn] at he
    injection he with h1 h2
    exact absurd h2 (splitNN_ne_nil rest)
  | case4 c1 c2 rest hg heq ih => exact absurd heq (splitNN_ne_nil _)
  | case5 c1 c2 rest hg hd tl heq ih =>
    rw [splitNN_cons_cons hg heq] at he
    injection he with h1 h2
    subst h2
    have h3 : c2 :: rest = hd := ih heq
    rw [← h1, ← h3]

theorem joinNN_splitNN (s : Str) : joinNN (splitNN s) = s := by
  induction s using splitNN.induct with
  | case1 => rfl
  | case2 c => rfl
  | case3 c1 c2 rest hg ih =>
    obtain ⟨rfl, rfl⟩ := hg
    rw [splitNN_nn]
    obtain ⟨hd, tl, heq⟩ := List.exists_cons_of_ne_nil (splitNN_ne_nil rest)
    rw [heq]
    show [] ++ '\n' :: '\n' :: joinNN (hd :: tl) = '\n' :: '\n' :: rest
    rw [heq] at ih
    simpa using ih
  | case4 c1 c2 rest hg heq ih => exact absurd heq (splitNN_ne_nil _)
  | case5 c1 c2 rest hg hd tl heq ih =>
    rw [splitNN_cons_cons hg heq]
    rw [heq] at ih
    cases tl with
    | nil =>
      show c1 :: hd = c1 :: c2 :: rest
      have : hd = c2 :: rest := by simpa [joinNN] using ih
      rw [this]
    | cons t0 ts =>
      show (c1 :: hd) ++ '\n' :: '\n' :: joinNN (t0 :: ts) = c1 :: c2 :: rest
      have : hd ++ '\n' :: '\n' :: joinNN (t0 :: ts) = c2 :: rest := ih
      simpa using this

theorem splitNN_head_shape {c : Char} {l hd : Str} {tl : List Str}
    (he : splitNN (c :: l) = hd :: tl) : hd = [] ∨ ∃ h', hd = c :: h' := by
  cases l with
  | nil =>
    rw [splitNN] at he
    injection he with h1 h2
    exact Or.inr ⟨[], h1.symm⟩
  | cons c2 rest =>
    by_cases hg : c = '\n' ∧ c2 = '\n'
    · obtain ⟨rfl, rfl⟩ := hg
      rw [splitNN_nn] at he
      injection he with h1 h2
      exact Or.inl h1.symm
    · rcases heq : splitNN (c2 :: rest) with _ | ⟨h', t'⟩
      · exact absurd heq (splitNN_ne_nil _)
      · rw [splitNN_cons_cons hg heq] at he
        injection he with h1 h2
        exact Or.inr ⟨h', h1.symm⟩

theorem hasNN_cons_cons (c1 c2 : Char) (rest : Str) :
    hasNN (c1 :: c2 :: rest) = ((c1 = '\n' && c2 = '\n') || hasNN (c2 :: rest)) := rfl

theorem hasNN_lastD_splitNN (s : Str) : hasNN (lastD (splitNN s)) = false := by
  induction s using splitNN.induct with
  | case1 => rfl
  | case2 c => rfl
  | case3 c1 c2 rest hg ih =>
    obtain ⟨rfl, rfl⟩ := hg
    rw [splitNN_nn]
    obtain ⟨hd, tl, heq⟩ := List.exists_cons_of_ne_nil (splitNN_ne_nil rest)
    rw [heq, lastD_cons_cons, ← heq]
    exact ih
  | case4 c1 c2 rest hg heq ih => exact absurd heq (splitNN_ne_nil _)
  | case5 c1 c2 rest hg hd tl heq ih =>
    rw [splitNN_cons_cons hg heq]
    rw [heq] at ih
    cases tl with
    | nil =>
      show hasNN (c1 :: hd) = false
      have ihd : hasNN hd = false := ih
      rcases splitNN_head_shape heq with h0 | ⟨h', rfl⟩
      · subst h0; rfl
      · rw [hasNN_cons_cons]
        rw [Bool.or_eq_false_iff]
        refine ⟨?_, ihd⟩
        by_cases h1 : c1 = '\n'
        · by_cases h2 : c2 = '\n'
          · exact absurd ⟨h1, h2⟩ hg
          · simp [h2]
        · simp [h1]
    | cons t0 ts =>
      rw [lastD_cons_cons]
      rw [lastD_cons_cons] at ih
      exact ih

theorem splitNN_of_hasNN {s : Str} (h : hasNN s = false) : splitNN s = [s] := by
  induction s using splitNN.induct with
  | case1 => rfl
  | case2 c => rfl
  | case3 c1 c2 rest hg ih =>
    exfalso
    rw [hasNN_cons_cons] at h
    simp [hg.1, hg.2] at h
  | case4 c1 c2 rest hg heq ih => exact absurd heq (splitNN_ne_nil _)
  | case5 c1 c2 rest hg hd tl heq ih =>
    have h' : hasNN (c2 :: rest) = false := by
      rw [hasNN_cons_cons] at h
      exact (Bool.or_eq_false_iff.mp h).2
    have h2 := ih h'
    rw [heq] at h2
    injection h2 with h3 h4
    subst h4
    rw [splitNN_cons_cons hg heq, h3]

theorem splitNN_append (x y : Str) :
    splitNN (x ++ y) = (splitNN x).dropLast ++ splitNN (lastD (splitNN x) ++ y) := by
  induction x using splitNN.induct with
  | case1 => rfl
  | case2 c => rfl
  | case3 c1 c2 rest hg ih =>
    obtain ⟨rfl, rfl⟩ := hg
    obtain ⟨hd, tl, heq⟩ := List.exists_cons_of_ne_nil (splitNN_ne_nil rest)
    show splitNN ('\n' :: '\n' :: (rest ++ y)) = _
    rw [splitNN_nn, splitNN_nn, heq]
    rw [List.dropLast_cons_of_ne_nil (by simp : hd :: tl ≠ [])]
    have hlast : lastD ([] :: hd :: tl) = lastD (hd :: tl) := rfl
    rw [hlast, List.cons_append]
    rw [← heq, ih]
  | case4 c1 c2 rest hg heq ih => exact absurd heq (splitNN_ne_nil _)
  | case5 c1 c2 rest hg hd tl heq ih =>
    cases tl with
    | nil =>
      have hsing : c2 :: rest = hd := splitNN_eq_singleton heq
      have hx : splitNN (c1 :: c2 :: rest) = [c1 :: c2 :: rest] := by
        rw [splitNN_cons_cons hg heq, ← hsing]
      rw [hx]
      show splitNN ((c1 :: c2 :: rest) ++ y) =
        [c1 :: c2 :: rest].dropLast ++ splitNN (lastD [c1 :: c2 :: rest] ++ y)
      rw [List.dropLast_single, List.nil_append]
      rfl
    | cons t0 ts =>
      have hx : splitNN (c1 :: c2 :: rest) = (c1 :: hd) :: t0 :: ts :=
        splitNN_cons_cons hg heq
      have ih' : splitNN (c2 :: (rest ++ y)) =
          hd :: ((t0 :: ts).dropLast ++ splitNN (lastD (t0 :: ts) ++ y)) := by
        have hstep : splitNN ((c2 :: rest) ++ y) =
            (splitNN (c2 :: rest)).dropLast ++
              splitNN (lastD (splitNN (c2 :: rest)) ++ y) := ih
        rw [heq] at hstep
        rw [List.dropLast_cons_of_ne_nil (by simp : t0 :: ts ≠ []),
          lastD_cons_cons, List.cons_append] at hstep
        exact hstep
      have hgoal : splitNN (c1 :: c2 :: (rest ++ y)) =
          (c1 :: hd) :: ((t0 :: ts).dropLast ++ splitNN (lastD (t0 :: ts) ++ y)) :=
        splitNN_cons_cons hg ih'
      show splitNN (c1 :: c2 :: (rest ++ y)) = _
      rw [hgoal, hx]
      rw [List.dropLast_cons_of_ne_nil (by simp : t0 :: ts ≠ []),
        lastD_cons_cons, List.cons_append]

/-! ## Composition of the read loop: chunking invariance -/

theorem except_bind_ok {ε α β : Type} (a : α) (f : α → Except ε β) :
    (Except.ok a >>= f) = f a := rfl

theorem except_bind_error {ε α β : Type} (e : ε) (f : α → Except ε β) :
    ((Except.error e : Except ε α) >>= f) = Except.error e := rfl

theorem except_map_ok {ε α β : Type} (f : α → β) (a : α) :
    (Except.map f (Except.ok a) : Except ε β) = Except.ok (f a) := rfl

theorem except_map_error {ε α β : Type} (f : α → β) (e : ε) :
    (Except.map f (Except.error e : Except ε α)) = (Except.error e : Except ε β) := rfl

theorem readStep_comp (aid : Nat) (bs : BufState) (r₁ r₂ : Str) :
    (readStep aid bs r₁).bind (fun bs' => readStep aid bs' r₂) =
      readStep aid bs (r₁ ++ r₂) := by
  simp only [readStep, eventsStep]
  rw [← List.append_assoc, splitNN_append (bs.buffer ++ r₁) r₂]
  rw [List.dropLast_append_of_ne_nil _ (splitNN_ne_nil _)]
  rw [lastD_append _ _ (splitNN_ne_nil _)]
  rw [List.foldlM_append]
  cases h1 : List.foldlM (eventStep aid) bs.state (splitNN (bs.buffer ++ r₁)).dropLast with
  | error e => simp [h1, except_map_error, except_bind_error, Except.bind]
  | ok st1 => simp [h1, except_map_ok, except_bind_ok, Except.bind]

theorem readStep_buffer {aid : Nat} {bs bs' : BufState} {r : Str}
    (h : readStep aid bs r = .ok bs') :
    bs'.buffer = lastD (splitNN (bs.buffer ++ r)) := by
  simp only [readStep, eventsStep] at h
  cases h1 : List.foldlM (eventStep aid) bs.state (splitNN (bs.buffer ++ r)).dropLast with
  | error e => rw [h1] at h; simp [Except.map] at h
  | ok st =>
    rw [h1] at h
    simp [Except.map] at h
    rw [← h]

theorem readLoop_join (aid : Nat) (bs : BufState) (reads : List Str)
    (h : hasNN bs.buffer = false) :
    readLoop aid bs reads = readStep aid bs (concatAll reads) := by
  induction reads generalizing bs with
  | nil =>
    simp only [readLoop, concatAll, List.foldlM, readStep, eventsStep, List.append_nil,
      splitNN_of_hasNN h]
    rfl
  | cons r rs ih =>
    rw [concatAll, ← readStep_comp]
    rw [readLoop, List.foldlM]
    cases h1 : readStep aid bs r with
    | error e => rfl
    | ok bs' =>
      have hb : hasNN bs'.buffer = false := by
        rw [readStep_buffer h1]
        exact hasNN_lastD_splitNN _
      exact ih bs' hb

/-! ## Invariant preservation through the loop -/

theorem foldlM_ok_induction {σ α ε : Type} (f : σ → α → Except ε σ) (P : σ → Prop)
    (hf : ∀ s a s', f s a = .ok s' → P s → P s') :
    ∀ (l : List α) (s s' : σ), List.foldlM f s l = .ok s' → P s → P s' := by
  intro l
  induction l with
  | nil =>
    intro s s' h hp
    have h' : Except.ok s = Except.ok s' := h
    injection h' with h2
    exact h2 ▸ hp
  | cons a l ih =>
    intro s s' h hp
    rw [List.foldlM] at h
    cases h1 : f s a with
    | error e =>
      rw [h1, except_bind_error] at h
      exact absurd h (by simp)
    | ok s1 =>
      rw [h1, except_bind_ok] at h
      exact ih s1 s' h (hf s a s1 h1 hp)

theorem foldlM_error_induction {σ α ε : Type} (f : σ → α → Except ε σ) (P : σ → Prop)
    (Q : ε → Prop)
    (hok : ∀ s a s', f s a = .ok s' → P s → P s')
    (herr : ∀ s a e, f s a = .error e → P s → Q e) :
    ∀ (l : List α) (s : σ) (e : ε), List.foldlM f s l = .error e → P s → Q e := by
  intro l
  induction l with
  | nil =>
    intro s e h hp
    have h' : Except.ok s = Except.error e := h
    exact absurd h' (by simp)
  | cons a l ih =>
    intro s e h hp
    rw [List.foldlM] at h
    cases h1 : f s a with
    | error e1 =>
      rw [h1, except_bind_error] at h
      injection h with h2
      exact h2 ▸ herr s a e1 h1 hp
    | ok s1 =>
      rw [h1, except_bind_ok] at h
      exact ih s1 e h (hok s a s1 h1 hp)

theorem foldl_induction {σ α : Type} (f : σ → α → σ) (P : σ → Prop)
    (hf : ∀ s a, P s → P (f s a)) :
    ∀ (l : List α) (s : σ), P s → P (List.foldl f s l) := by
  intro l
  induction l with
  | nil => intro s hp; exact hp
  | cons a l ih => intro s hp; exact ih (f s a) (hf s a hp)

/-- Messages whose id differs from the draft id are fixed by `updateDraft`. -/
theorem updateDraft_of_ne (aid : Nat) (c : Str) (base : List Message)
    (hb : ∀ m ∈ base, m.id ≠ aid) : updateDraft aid c base = base := by
  induction base with
  | nil => rfl
  | cons m l ih =>
    rw [updateDraft, List.map_cons]
    rw [if_neg (hb m (by simp))]
    have : updateDraft aid c l = l := ih fun m hm => hb m (by simp [hm])
    rw [updateDraft] at this
    rw [this]

/-- Messages whose id differs from the draft id are fixed by `finalizeDraft`. -/
theorem finalizeDraft_of_ne (aid : Nat) (base : List Message)
    (hb : ∀ m ∈ base, m.id ≠ aid) : finalizeDraft aid base = base := by
  induction base with
  | nil => rfl
  | cons m l ih =>
    rw [finalizeDraft, List.map_cons]
    rw [if_neg (hb m (by simp))]
    have : finalizeDraft aid l = l := ih fun m hm => hb m (by simp [hm])
    rw [finalizeDraft] at this
    rw [this]

/-- Updating the draft in a list that ends with the draft rewrites just
the draft. -/
theorem updateDraft_snoc (aid : Nat) (c c0 : Str) (ts : Nat) (base : List Message)
    (hb : ∀ m ∈ base, m.id ≠ aid) (s : Bool) (ro : Role) :
    updateDraft aid c (base ++ [⟨aid, ro, c0, ts, s⟩]) =
      base ++ [⟨aid, ro, c, ts, true⟩] := by
  rw [updateDraft, List.map_append]
  congr 1
  · exact updateDraft_of_ne aid c base hb
  · simp

/-- Clearing the streaming flag in a list that ends with the draft
rewrites just the draft. -/
theorem finalizeDraft_snoc (aid : Nat) (c : Str) (ts : Nat) (base : List Message)
    (hb : ∀ m ∈ base, m.id ≠ aid) (s : Bool) (ro : Role) :
    finalizeDraft aid (base ++ [⟨aid, ro, c, ts, s⟩]) =
      base ++ [⟨aid, ro, c, ts, false⟩] := by
  rw [finalizeDraft, List.map_append]
  congr 1
  · exact finalizeDraft_of_ne aid base hb
  · simp

/-- Filtering the draft id out of a list that ends with the draft
removes exactly the draft. -/
theorem filter_snoc_draft (aid : Nat) (c : Str) (ts : Nat) (base : List Message)
    (hb : ∀ m ∈ base, m.id ≠ aid) (s : Bool) (ro : Role) :
    ((base ++ [Message.mk aid ro c ts s]).filter fun m => m.id != aid) = base := by
  rw [List.filter_append]
  have h1 : base.filter (fun m => m.id != aid) = base := by
    apply List.filter_eq_self.mpr
    intro m hm
    simp [hb m hm]
  rw [h1]
  simp

theorem lineStep_ok_inv {base : List Message} {aid ts : Nat}
    (hb : ∀ m ∈ base, m.id ≠ aid) {st st' : StreamState} {line : Str}
    (h : lineStep aid st line = .ok st') (hp : DraftInv base aid ts st) :
    DraftInv base aid ts st' := by
  obtain ⟨s, hs⟩ := hp
  rw [lineStep] at h
  split at h
  · split at h
    · injection h with h'
      refine ⟨true, ?_⟩
      rw [← h']
      show updateDraft aid (st.content ++ line.drop 6) st.messages =
        base ++ [⟨aid, Role.assistant, st.content ++ line.drop 6, ts, true⟩]
      rw [hs]
      exact updateDraft_snoc aid _ _ ts base hb s Role.assistant
    · split at h
      · exact absurd h (by simp)
      · injection h with h'
        exact ⟨s, by rw [← h']; exact hs⟩
  · injection h with h'
    exact ⟨s, by rw [← h']; exact hs⟩

theorem lineStep_error_inv {base : List Message} {aid ts : Nat}
    {st : StreamState} {line : Str} {e : StreamErr}
    (h : lineStep aid st line = .error e) (hp : DraftInv base aid ts st) :
    ErrInv base aid ts e := by
  obtain ⟨s, hs⟩ := hp
  rw [lineStep] at h
  split at h
  · split at h
    · exact absurd h (by simp)
    · split at h
      · injection h with h'
        exact ⟨st.content, s, by rw [← h']; exact hs⟩
      · exact absurd h (by simp)
  · exact absurd h (by simp)

theorem eventStep_ok_inv {base : List Message} {aid ts : Nat}
    (hb : ∀ m ∈ base, m.id ≠ aid) {st st' : StreamState} {ev : Str}
    (h : eventStep aid st ev = .ok st') (hp : DraftInv base aid ts st) :
    DraftInv base aid ts st' :=
  foldlM_ok_induction (lineStep aid) (DraftInv base aid ts)
    (fun _ _ _ h1 hp1 => lineStep_ok_inv hb h1 hp1) (splitN ev) st st' h hp

theorem eventStep_error_inv {base : List Message} {aid ts : Nat}
    (hb : ∀ m ∈ base, m.id ≠ aid) {st : StreamState} {ev : Str} {e : StreamErr}
    (h : eventStep aid st ev = .error e) (hp : DraftInv base aid ts st) :
    ErrInv base aid ts e :=
  foldlM_error_induction (lineStep aid) (DraftInv base aid ts) (ErrInv base aid ts)
    (fun _ _ _ h1 hp1 => lineStep_ok_inv hb h1 hp1)
    (fun _ _ _ h1 hp1 => lineStep_error_inv h1 hp1) (splitN ev) st e h hp

theorem readStep_ok_inv {base : List Message} {aid ts : Nat}
    (hb : ∀ m ∈ base, m.id ≠ aid) {bs bs' : BufState} {r : Str}
    (h : readStep aid bs r = .ok bs') (hp : DraftInv base aid ts bs.state) :
    DraftInv base aid ts bs'.state := by
  simp only [readStep, eventsStep] at h
  cases h1 : List.foldlM (eventStep aid) bs.state (splitNN (bs.buffer ++ r)).dropLast with
  | error e => rw [h1] at h; simp [Except.map] at h
  | ok st =>
    rw [h1] at h
    simp [Except.map] at h
    rw [← h]
    exact foldlM_ok_induction (eventStep aid) (DraftInv base aid ts)
      (fun _ _ _ h2 hp2 => eventStep_ok_inv hb h2 hp2) _ bs.state st h1 hp

theorem readStep_error_inv {base : List Message} {aid ts : Nat}
    (hb : ∀ m ∈ base, m.id ≠ aid) {bs : BufState} {r : Str} {e : StreamErr}
    (h : readStep aid bs r = .error e) (hp : DraftInv base aid ts bs.state) :
    ErrInv base aid ts e := by
  simp only [readStep, eventsStep] at h
  cases h1 : List.foldlM (eventStep aid) bs.state (splitNN (bs.buffer ++ r)).dropLast with
  | error e1 =>
    rw [h1] at h
    simp [Except.map] at h
    rw [← h]
    exact foldlM_error_induction (eventStep aid) (DraftInv base aid ts) (ErrInv base aid ts)
      (fun _ _ _ h2 hp2 => eventStep_ok_inv hb h2 hp2)
      (fun _ _ _ h2 hp2 => eventStep_error_inv hb h2 hp2) _ bs.state e1 h1 hp
  | ok st => rw [h1] at h; simp [Except.map] at h

theorem readLoop_ok_inv {base : List Message} {aid ts : Nat}
    (hb : ∀ m ∈ base, m.id ≠ aid) {bs bs' : BufState} {reads : List Str}
    (h : readLoop aid bs reads = .ok bs') (hp : DraftInv base aid ts bs.state) :
    DraftInv base aid ts bs'.state :=
  foldlM_ok_induction (readStep aid) (fun b => DraftInv base aid ts b.state)
    (fun _ _ _ h1 hp1 => readStep_ok_inv hb h1 hp1) reads bs bs' h hp

theorem readLoop_error_inv {base : List Message} {aid ts : Nat}
    (hb : ∀ m ∈ base, m.id ≠ aid) {bs : BufState} {reads : List Str} {e : StreamErr}
    (h : readLoop aid bs reads = .error e) (hp : DraftInv base aid ts bs.state) :
    ErrInv base aid ts e :=
  foldlM_error_induction (readStep aid) (fun b => DraftInv base aid ts b.state)
    (ErrInv base aid ts)
    (fun _ _ _ h1 hp1 => readStep_ok_inv hb h1 hp1)
    (fun _ _ _ h1 hp1 => readStep_error_inv hb h1 hp1) reads bs e h hp

theorem tailLine_inv {base : List Message} {aid ts : Nat}
    (hb : ∀ m ∈ base, m.id ≠ aid) (st : StreamState) (line : Str)
    (hp : DraftInv base aid ts st) : DraftInv base aid ts (tailLine aid st line) := by
  obtain ⟨s, hs⟩ := hp
  rw [tailLine]
  split
  · split
    · refine ⟨true, ?_⟩
      show updateDraft aid (st.content ++ line.drop 6) st.messages =
        base ++ [⟨aid, Role.assistant, st.content ++ line.drop 6, ts, true⟩]
      rw [hs]
      exact updateDraft_snoc aid _ _ ts base hb s Role.assistant
    · exact ⟨s, hs⟩
  · exact ⟨s, hs⟩

theorem tailPass_inv {base : List Message} {aid ts : Nat}
    (hb : ∀ m ∈ base, m.id ≠ aid) (st : StreamState) (buf : Str)
    (hp : DraftInv base aid ts st) : DraftInv base aid ts (tailPass aid st buf) := by
  rw [tailPass]
  split
  · exact hp
  · exact foldl_induction (tailLine aid) (DraftInv base aid ts)
      (fun s a hp1 => tailLine_inv hb s a hp1) (splitN buf) st hp

/-! ## Tag and content bookkeeping lemmas -/

theorem dataTag_isPrefixOf_append (b : Str) : dataTag.isPrefixOf (dataTag ++ b) = true :=
  List.isPrefixOf_iff_prefix.mpr (List.prefix_append dataTag b)

theorem errTag_isPrefixOf_append (b : Str) : errTag.isPrefixOf (errTag ++ b) = true :=
  List.isPrefixOf_iff_prefix.mpr (List.prefix_append errTag b)

theorem drop6_dataTag (b : Str) : (dataTag ++ b).drop 6 = b := rfl

theorem drop7_errTag (b : Str) : (errTag ++ b).drop 7 = b := rfl

theorem hasNL_append (a b : Str) : hasNL (a ++ b) = (hasNL a || hasNL b) := by
  induction a with
  | nil => rfl
  | cons c l ih => rw [List.cons_append, hasNL, hasNL, ih, Bool.or_assoc]

theorem splitN_of_hasNL {s : Str} (h : hasNL s = false) : splitN s = [s] := by
  induction s with
  | nil => rfl
  | cons c rest ih =>
    rw [hasNL] at h
    obtain ⟨h1, h2⟩ := Bool.or_eq_false_iff.mp h
    rw [splitN, if_neg (of_decide_eq_false h1), ih h2]

theorem foldl_append_shift (L : List Str) (a b : Str) :
    L.foldl (· ++ ·) (a ++ b) = a ++ L.foldl (· ++ ·) b := by
  induction L generalizing b with
  | nil => rfl
  | cons x L ih =>
    rw [List.foldl_cons, List.foldl_cons, List.append_assoc]
    exact ih (b ++ x)

theorem foldl_append_out (L : List Str) (a : Str) :
    L.foldl (· ++ ·) a = a ++ L.foldl (· ++ ·) [] := by
  have h := foldl_append_shift L a []
  rwa [List.append_nil] at h

theorem lineStep_ok_content {aid : Nat} {st st' : StreamState} {line : Str}
    (h : lineStep aid st line = .ok st') :
    st'.content = st.content ++ lineContent line := by
  by_cases hp : dataTag.isPrefixOf line = true
  · by_cases hc : (!(line.drop 6).isEmpty && !errTag.isPrefixOf (line.drop 6)) = true
    · rw [lineStep, if_pos hp, if_pos hc] at h
      injection h with h'
      rw [lineContent, if_pos hp, if_pos hc, ← h']
    · rw [lineStep, if_pos hp, if_neg hc] at h
      split at h
      · exact absurd h (by simp)
      · injection h with h'
        rw [lineContent, if_pos hp, if_neg hc, ← h', List.append_nil]
  · rw [lineStep, if_neg hp] at h
    injection h with h'
    rw [lineContent, if_neg hp, ← h', List.append_nil]

theorem foldlM_lines_content (aid : Nat) :
    ∀ (L : List Str) (st st' : StreamState),
      List.foldlM (lineStep aid) st L = .ok st' →
      st'.content = st.content ++ (L.map lineContent).foldl (· ++ ·) [] := by
  intro L
  induction L with
  | nil =>
    intro st st' h
    have h' : Except.ok st = Except.ok st' := h
    injection h' with h2
    rw [← h2, List.map_nil, List.foldl_nil, List.append_nil]
  | cons l L ih =>
    intro st st' h
    rw [List.foldlM] at h
    cases h1 : lineStep aid st l with
    | error e =>
      rw [h1, except_bind_error] at h
      exact absurd h (by simp)
    | ok st1 =>
      rw [h1, except_bind_ok] at h
      rw [ih st1 st' h, lineStep_ok_content h1, List.map_cons, List.foldl_cons,
        List.nil_append, foldl_append_out (L.map lineContent) (lineContent l),
        List.append_assoc]

theorem eventStep_content {aid : Nat} {st st' : StreamState} {ev : Str}
    (h : eventStep aid st ev = .ok st') :
    st'.content = st.content ++ eventContent ev :=
  foldlM_lines_content aid (splitN ev) st st' h

/-! ## Claim theorems -/

/-- C1: for every frame byte sequence and every way of splitting it into
arbitrary-sized reads, the receiver loop of `handleSendMessage`
accumulates exactly the same state (content, messages, error, loading)
as consuming the whole sequence in a single read; in particular the
bytes `"data: hello\n\n"` delivered as `"da"` then `"ta: hello\n\n"`
reconstruct exactly `"hello"`. -/
theorem c1_stream_reassembly_invariant :
    (∀ (msgs : List Message) (pe : Option Str) (ld : Bool) (text : Str)
        (uid aid ts : Nat) (reads : List Str),
      handleSendMessage msgs pe ld text uid aid ts reads =
        handleSendMessage msgs pe ld text uid aid ts [concatAll reads])
    ∧ handleSendMessage [] none false (strOf "hi") 1 2 0
        [strOf "da", strOf "ta: hello\n\n"] =
      ⟨[mkUserMsg 1 0 (strOf "hi"), ⟨2, Role.assistant, strOf "hello", 0, false⟩],
        none, false⟩ := by
  constructor
  · intro msgs pe ld text uid aid ts reads
    have h1 : readLoop aid ⟨[], ⟨[], initMsgs msgs uid ts text aid⟩⟩ reads =
        readLoop aid ⟨[], ⟨[], initMsgs msgs uid ts text aid⟩⟩ [concatAll reads] := by
      rw [readLoop_join aid ⟨[], ⟨[], initMsgs msgs uid ts text aid⟩⟩ reads rfl,
        readLoop_join aid ⟨[], ⟨[], initMsgs msgs uid ts text aid⟩⟩ [concatAll reads] rfl]
      rw [concatAll, concatAll, List.append_nil]
    simp only [handleSendMessage]
    rw [h1]
  · decide

/-- C2: a complete frame whose payload starts with `"[ERROR]"` stops
consumption, removes the in-progress draft from the message list,
surfaces the text after the sentinel, and leaves the user message in
place; the error thrown for payload `"[ERROR]" ++ rest` is exactly
`trim rest`. -/
theorem c2_error_frame_discards_draft
    (msgs : List Message) (pe : Option Str) (text : Str) (uid aid ts : Nat)
    (reads : List Str) (e : Str) (em : List Message)
    (htext : (trim text).isEmpty = false)
    (hb : ∀ m ∈ msgs, m.id ≠ aid) (hu : uid ≠ aid)
    (herr : readLoop aid ⟨[], ⟨[], initMsgs msgs uid ts text aid⟩⟩ reads =
      .error (e, em)) :
    handleSendMessage msgs pe false text uid aid ts reads =
      ⟨msgs ++ [mkUserMsg uid ts text], some e, false⟩
    ∧ ∀ (aid' : Nat) (st : StreamState) (rest : Str),
        lineStep aid' st (dataTag ++ errTag ++ rest) =
          .error (trim rest, st.messages) := by
  constructor
  · have hb' : ∀ m ∈ msgs ++ [mkUserMsg uid ts text], m.id ≠ aid := by
      intro m hm
      rcases List.mem_append.mp hm with h | h
      · exact hb m h
      · rw [List.mem_singleton.mp h]
        simpa [mkUserMsg] using hu
    have hinit : DraftInv (msgs ++ [mkUserMsg uid ts text]) aid ts
        (⟨[], initMsgs msgs uid ts text aid⟩ : StreamState) := by
      refine ⟨true, ?_⟩
      show initMsgs msgs uid ts text aid =
        (msgs ++ [mkUserMsg uid ts text]) ++ [⟨aid, Role.assistant, [], ts, true⟩]
      rw [initMsgs]
      simp [mkDraft]
    have herrInv : ErrInv (msgs ++ [mkUserMsg uid ts text]) aid ts (e, em) :=
      readLoop_error_inv hb' herr hinit
    obtain ⟨c, s, hem⟩ := herrInv
    have hguard : ¬(((trim text).isEmpty || false) = true) := by
      rw [htext]
      decide
    simp only [handleSendMessage]
    rw [if_neg hguard, herr]
    show (⟨em.filter fun m => m.id != aid, some e, false⟩ : TurnResult) = _
    have hem' : em = (msgs ++ [mkUserMsg uid ts text]) ++
        [Message.mk aid Role.assistant c ts s] := hem
    rw [hem', filter_snoc_draft aid c ts _ hb' s Role.assistant]
  · intro aid' st rest
    simp [lineStep, dataTag_isPrefixOf_append, drop6_dataTag, drop7_errTag,
      errTag_isPrefixOf_append]

/-- C2 witness: Scenario D concretely — frames `"data: partial"` then
`"data: [ERROR] rate limited"` leave only the user message and surface
`"rate limited"`. -/
theorem c2_witness :
    handleSendMessage [] none false (strOf "hi") 1 2 0
      [strOf "data: partial\n\n", strOf "data: [ERROR] rate limited\n\n"] =
    ⟨[mkUserMsg 1 0 (strOf "hi")], some (strOf "rate limited"), false⟩ :=
  (c2_error_frame_discards_draft [] none (strOf "hi") 1 2 0
    [strOf "data: partial\n\n", strOf "data: [ERROR] rate limited\n\n"]
    (strOf "rate limited")
    [mkUserMsg 1 0 (strOf "hi"), ⟨2, Role.assistant, strOf "partial", 0, true⟩]
    (by decide) (by decide) (by decide) (by decide)).1

/-- C3 counterexample: the claim that a multi-line payload is
reconstructed by concatenation is false — for the event
`"data: hello\nworld"` the receiver keeps only the `"data: "` line:
the final content is `"hello"` and contains no character of
`"world"`'s continuation line (no `'w'` at all). -/
theorem c3_counterexample :
    handleSendMessage [] none false (strOf "hi") 1 2 0
      [strOf "data: hello\nworld\n\n"] =
      ⟨[mkUserMsg 1 0 (strOf "hi"), ⟨2, Role.assistant, strOf "hello", 0, false⟩],
        none, false⟩
    ∧ (strOf "hello").contains 'w' = false := by
  constructor
  · decide
  · decide

/-- C3 amended: for every complete event processed without error, the
accumulated content grows by exactly the concatenation of the after-tag
payloads of the event's non-empty, non-error `"data: "` lines; lines
not starting with `"data: "` (such as continuation lines of a
multi-line payload) contribute nothing. -/
theorem c3_amended_data_lines_only (aid : Nat) (st st' : StreamState) (ev : Str)
    (h : eventStep aid st ev = .ok st') :
    st'.content = st.content ++ eventContent ev :=
  eventStep_content h

/-- C3 amended witness: processing `"data: hello\nworld"` from the empty
state ends with content `"hello"` = `eventContent` of the event. -/
theorem c3_amended_witness :
    (⟨strOf "hello", ([] : List Message)⟩ : StreamState).content =
      ([] : Str) ++ eventContent (strOf "data: hello\nworld") :=
  c3_amended_data_lines_only 2 ⟨[], []⟩ ⟨strOf "hello", []⟩
    (strOf "data: hello\nworld") (by decide)

/-- C4 counterexample: the claim that trailing bytes with no delimiter
are never interpreted as a complete frame "including when the byte
stream ends" is false — the stream `"data: tail"` (never terminated by
`"\n\n"`) ends with content `"tail"`: the leftover buffer was processed
as a frame at stream end. -/
theorem c4_counterexample :
    handleSendMessage [] none false (strOf "hi") 1 2 0 [strOf "data: tail"] =
      ⟨[mkUserMsg 1 0 (strOf "hi"), ⟨2, Role.assistant, strOf "tail", 0, false⟩],
        none, false⟩
    ∧ strOf "tail" ≠ [] := by
  constructor
  · decide
  · decide

/-- C4 amended: during consumption the retained buffer never contains a
complete frame delimiter and no bytes are discarded (the split pieces
rejoined with the delimiter reconstruct the input exactly); but at
stream end the remaining buffer IS processed: a leftover non-empty,
non-error data line is appended to the content. -/
theorem c4_amended_retention_and_final_flush (aid : Nat) (st : StreamState)
    (p : Str) (h1 : p ≠ []) (h2 : errTag.isPrefixOf p = false)
    (h3 : hasNL p = false) :
    (∀ s : Str, hasNN (lastD (splitNN s)) = false)
    ∧ (∀ s : Str, joinNN (splitNN s) = s)
    ∧ tailPass aid st (dataTag ++ p) =
        ⟨st.content ++ p, updateDraft aid (st.content ++ p) st.messages⟩ := by
  refine ⟨hasNN_lastD_splitNN, joinNN_splitNN, ?_⟩
  have hpe : p.isEmpty = false := by
    cases p with
    | nil => exact absurd rfl h1
    | cons a l => rfl
  have hnl : hasNL (dataTag ++ p) = false := by
    rw [hasNL_append, h3, Bool.or_false]
    decide
  have hie : (dataTag ++ p).isEmpty = false := rfl
  have hcond : (!((dataTag ++ p).drop 6).isEmpty &&
      !errTag.isPrefixOf ((dataTag ++ p).drop 6)) = true := by
    rw [drop6_dataTag, hpe, h2]
    decide
  rw [tailPass, if_neg (by rw [hie]; decide), splitN_of_hasNL hnl, List.foldl_cons,
    List.foldl_nil]
  rw [tailLine, if_pos (dataTag_isPrefixOf_append p), if_pos hcond, drop6_dataTag]

/-- C4 amended witness: the unterminated tail `"data: tail"` is flushed
into the content at stream end. -/
theorem c4_amended_witness :
    tailPass 2 ⟨strOf "a", []⟩ (dataTag ++ strOf "tail") =
      ⟨strOf "atail", updateDraft 2 (strOf "atail") []⟩ :=
  (c4_amended_retention_and_final_flush 2 ⟨strOf "a", []⟩ (strOf "tail")
    (by decide) (by decide) (by decide)).2.2

/-- C5: for every complete data frame whose payload is non-empty, not
error-tagged and newline-free, the payload after the 6-character
`"data: "` tag is appended verbatim — all leading and trailing
whitespace preserved — and the draft is updated with its streaming flag
set. -/
theorem c5_verbatim_payload_append (aid : Nat) (st : StreamState) (payload : Str)
    (h1 : payload ≠ []) (h2 : errTag.isPrefixOf payload = false)
    (h3 : hasNL payload = false) :
    eventStep aid st (dataTag ++ payload) =
      .ok ⟨st.content ++ payload,
        updateDraft aid (st.content ++ payload) st.messages⟩ := by
  have hpe : payload.isEmpty = false := by
    cases payload with
    | nil => exact absurd rfl h1
    | cons a l => rfl
  have hnl : hasNL (dataTag ++ payload) = false := by
    rw [hasNL_append, h3, Bool.or_false]
    decide
  have hcond : (!((dataTag ++ payload).drop 6).isEmpty &&
      !errTag.isPrefixOf ((dataTag ++ payload).drop 6)) = true := by
    rw [drop6_dataTag, hpe, h2]
    decide
  rw [eventStep, splitN_of_hasNL hnl]
  rw [List.foldlM]
  rw [lineStep, if_pos (dataTag_isPrefixOf_append payload), if_pos hcond,
    drop6_dataTag]
  rfl

/-- C5 witness: the payload `" x "` (leading and trailing space) is
appended verbatim to prior content `"a"`, streaming flag set. -/
theorem c5_witness :
    eventStep 2 ⟨strOf "a", [⟨2, Role.assistant, strOf "a", 0, true⟩]⟩
        (dataTag ++ strOf " x ") =
      .ok ⟨strOf "a x ",
        updateDraft 2 (strOf "a x ") [⟨2, Role.assistant, strOf "a", 0, true⟩]⟩ :=
  c5_verbatim_payload_append 2 ⟨strOf "a", [⟨2, Role.assistant, strOf "a", 0, true⟩]⟩
    (strOf " x ") (by decide) (by decide) (by decide)

/-- C6: a stream that ends without any error frame completes the turn:
the draft is kept in the list with its streaming flag cleared, the
error state is `none` and loading is cleared; moreover every in-loop
draft update sets the streaming flag, so the flag is cleared only by
the single completion update after all frames are consumed. -/
theorem c6_clean_completion
    (msgs : List Message) (pe : Option Str) (text : Str) (uid aid ts : Nat)
    (reads : List Str) (bs : BufState)
    (htext : (trim text).isEmpty = false)
    (hb : ∀ m ∈ msgs, m.id ≠ aid) (hu : uid ≠ aid)
    (hok : readLoop aid ⟨[], ⟨[], initMsgs msgs uid ts text aid⟩⟩ reads = .ok bs) :
    (∃ c, handleSendMessage msgs pe false text uid aid ts reads =
        ⟨msgs ++ [mkUserMsg uid ts text, ⟨aid, Role.assistant, c, ts, false⟩],
          none, false⟩)
    ∧ (∀ (aid' : Nat) (c : Str) (ms : List Message) (m : Message),
        m ∈ updateDraft aid' c ms → m.id = aid' → m.isStreaming = true) := by
  constructor
  · have hb' : ∀ m ∈ msgs ++ [mkUserMsg uid ts text], m.id ≠ aid := by
      intro m hm
      rcases List.mem_append.mp hm with h | h
      · exact hb m h
      · rw [List.mem_singleton.mp h]
        simpa [mkUserMsg] using hu
    have hinit : DraftInv (msgs ++ [mkUserMsg uid ts text]) aid ts
        (⟨[], initMsgs msgs uid ts text aid⟩ : StreamState) := by
      refine ⟨true, ?_⟩
      show initMsgs msgs uid ts text aid =
        (msgs ++ [mkUserMsg uid ts text]) ++ [⟨aid, Role.assistant, [], ts, true⟩]
      rw [initMsgs]
      simp [mkDraft]
    have hloop : DraftInv (msgs ++ [mkUserMsg uid ts text]) aid ts bs.state :=
      readLoop_ok_inv hb' hok hinit
    have htail : DraftInv (msgs ++ [mkUserMsg uid ts text]) aid ts
        (tailPass aid bs.state bs.buffer) :=
      tailPass_inv hb' bs.state bs.buffer hloop
    obtain ⟨s, hs⟩ := htail
    refine ⟨(tailPass aid bs.state bs.buffer).content, ?_⟩
    have hguard : ¬(((trim text).isEmpty || false) = true) := by
      rw [htext]
      decide
    simp only [handleSendMessage]
    rw [if_neg hguard, hok]
    show (⟨finalizeDraft aid (tailPass aid bs.state bs.buffer).messages, none,
      false⟩ : TurnResult) = _
    rw [hs, finalizeDraft_snoc aid _ ts _ hb' s Role.assistant]
    simp
  · intro aid' c ms m hm hid
    rw [updateDraft] at hm
    obtain ⟨m0, hm0, hf⟩ := List.mem_map.mp hm
    by_cases h0 : m0.id = aid'
    · rw [if_pos h0] at hf
      rw [← hf]
    · rw [if_neg h0] at hf
      rw [← hf] at hid
      exact absurd hid h0

/-- C6 witness: the single clean frame `"data: ok\n\n"` completes with a
finalized draft kept in the list. -/
theorem c6_witness :
    ∃ c, handleSendMessage [] none false (strOf "hi") 1 2 0 [strOf "data: ok\n\n"] =
      ⟨[mkUserMsg 1 0 (strOf "hi"), ⟨2, Role.assistant, c, 0, false⟩],
        none, false⟩ :=
  (c6_clean_completion [] none (strOf "hi") 1 2 0 [strOf "data: ok\n\n"]
    ⟨[], ⟨strOf "ok",
      [mkUserMsg 1 0 (strOf "hi"), ⟨2, Role.assistant, strOf "ok", 0, true⟩]⟩⟩
    (by decide) (by decide) (by decide) (by decide)).1

/-- C7: a selected file whose extension (lower-cased) is not one of
`.pdf`, `.txt`, `.md`, `.docx` is rejected before upload — the
unsupported-type error is reported and the stored file is unchanged —
while a file with an allowed extension is accepted and the error is
cleared. -/
theorem c7_extension_validation (st : UploadState) (name : Str) :
    (allowedTypes.contains (fileExt name) = false →
      validateAndSetFile st name = ⟨st.file, unsupportedMsg⟩)
    ∧ (allowedTypes.contains (fileExt name) = true →
      validateAndSetFile st name = ⟨some name, []⟩) := by
  constructor
  · intro h
    simp only [validateAndSetFile, h]
    rfl
  · intro h
    simp only [validateAndSetFile, h]
    rfl

/-- C7 witness: `"report.exe"` is rejected with the stored file
unchanged; `"Notes.PDF"` (upper case) is accepted and clears the
error. -/
theorem c7_witness :
    validateAndSetFile ⟨none, []⟩ (strOf "report.exe") = ⟨none, unsupportedMsg⟩
    ∧ validateAndSetFile ⟨none, unsupportedMsg⟩ (strOf "Notes.PDF") =
      ⟨some (strOf "Notes.PDF"), []⟩ :=
  ⟨(c7_extension_validation ⟨none, []⟩ (strOf "report.exe")).1 (by decide),
   (c7_extension_validation ⟨none, unsupportedMsg⟩ (strOf "Notes.PDF")).2 (by decide)⟩

/-- C8: while a turn is streaming (`isLoading = true`), any further
submission is rejected — `handleSendMessage` returns with all state
unchanged, and the message input dispatches nothing. -/
theorem c8_reject_while_loading :
    (∀ (msgs : List Message) (pe : Option Str) (text : Str) (uid aid ts : Nat)
        (reads : List Str),
      handleSendMessage msgs pe true text uid aid ts reads = ⟨msgs, pe, true⟩)
    ∧ (∀ input : Str, handleSend input true = none) := by
  constructor
  · intro msgs pe text uid aid ts reads
    simp [handleSendMessage]
  · intro input
    simp [handleSend]

/-- C9: each streaming update (`updateDraft`) and the completion update
(`finalizeDraft`) leave every message whose id differs from the draft
id exactly as it was — same id, role, content, timestamp and streaming
flag at the same position. -/
theorem c9_other_messages_untouched (aid : Nat) (c : Str) (msgs : List Message)
    (i : Nat) (m : Message) (hm : msgs[i]? = some m) (hid : m.id ≠ aid) :
    (updateDraft aid c msgs)[i]? = some m
    ∧ (finalizeDraft aid msgs)[i]? = some m := by
  constructor
  · rw [updateDraft, List.getElem?_map, hm]
    simp [hid]
  · rw [finalizeDraft, List.getElem?_map, hm]
    simp [hid]

/-- C9 witness: the prior user message at position 0 is untouched by
both updates for draft id 2. -/
theorem c9_witness :
    (updateDraft 2 (strOf "x") [mkUserMsg 1 0 (strOf "hi")])[0]? =
      some (mkUserMsg 1 0 (strOf "hi"))
    ∧ (finalizeDraft 2 [mkUserMsg 1 0 (strOf "hi")])[0]? =
      some (mkUserMsg 1 0 (strOf "hi")) :=
  c9_other_messages_untouched 2 (strOf "x") [mkUserMsg 1 0 (strOf "hi")] 0
    (mkUserMsg 1 0 (strOf "hi")) (by decide) (by decide)

/-- C10: an `"[ERROR]"` payload that arrives only in the trailing buffer
after the stream closes is silently skipped by the final buffer pass —
no error is surfaced, the draft is kept and the turn completes as a
success with the content accumulated so far. -/
theorem c10_unterminated_error_frame_ignored :
    (∀ (aid : Nat) (st : StreamState) (rest : Str),
      tailLine aid st (dataTag ++ errTag ++ rest) = st)
    ∧ handleSendMessage [] none false (strOf "hi") 1 2 0
        [strOf "data: partial\n\ndata: [ERROR] rate limited"] =
      ⟨[mkUserMsg 1 0 (strOf "hi"), ⟨2, Role.assistant, strOf "partial", 0, false⟩],
        none, false⟩ := by
  constructor
  · intro aid st rest
    simp [tailLine, dataTag_isPrefixOf_append, drop6_dataTag,
      errTag_isPrefixOf_append]
  · decide
